import Mathlib

/-
Verification of the string-heuristic core of the `data-analysis` repository:
the deployment-type classifier of `2025/2025研发质量分析/analyze_saas_private.py`
(`classify_deployment`) and the incident/Jira reconciler of
`2025/2025研发质量分析/quality_analysis.py` (`extract_keywords`,
`match_incidents_with_jira`).

Python strings are modelled as `List Char`; the Python operators used by the
scripts (`in` as substring test, `str.lower`, `str.strip`, `str.replace`,
slicing) are given executable models below and the two scripts' functions are
transcribed on top of them.  Missing cells (pandas `NaN` guarded by
`pd.notna`) are modelled as `Option` fields; the scripts turn them into `''`.
-/

namespace DataAnalysis

/-! ### Python string primitives on `List Char` -/

/-- `strStartsWith hay needle` models Python `hay.startswith(needle)`:
`needle` is an initial segment of `hay`. -/
def strStartsWith : List Char → List Char → Bool
  | _, [] => true
  | [], _ :: _ => false
  | c :: rest, d :: ds => c == d && strStartsWith rest ds

/-- `strContains hay needle` models the Python substring test
`needle in hay`. -/
def strContains : List Char → List Char → Bool
  | [], needle => needle.isEmpty
  | c :: rest, needle => strStartsWith (c :: rest) needle || strContains rest needle

theorem strStartsWith_iff :
    ∀ (hay needle : List Char), strStartsWith hay needle = true ↔ ∃ t, needle ++ t = hay
  | _, [] => by simp [strStartsWith]
  | [], _ :: _ => by simp [strStartsWith]
  | c :: rest, d :: ds => by
    simp only [strStartsWith, Bool.and_eq_true, beq_iff_eq]
    constructor
    · rintro ⟨rfl, h⟩
      obtain ⟨t, rfl⟩ := (strStartsWith_iff rest ds).mp h
      exact ⟨t, rfl⟩
    · rintro ⟨t, h⟩
      rw [List.cons_append] at h
      obtain ⟨rfl, h2⟩ := List.cons.inj h
      exact ⟨rfl, (strStartsWith_iff rest ds).mpr ⟨t, h2⟩⟩

theorem strContains_iff :
    ∀ (hay needle : List Char), strContains hay needle = true ↔ ∃ s t, s ++ needle ++ t = hay
  | [], needle => by
    constructor
    · intro h
      have : needle = [] := by simpa [strContains, List.isEmpty_iff] using h
      exact ⟨[], [], by simp [this]⟩
    · rintro ⟨s, t, h⟩
      have hn : needle = [] := by
        have h2 : s = [] ∧ needle = [] ∧ t = [] := by simpa using h
        exact h2.2.1
      simp [strContains, hn]
  | c :: rest, needle => by
    simp only [strContains, Bool.or_eq_true, strStartsWith_iff]
    constructor
    · rintro (⟨t, ht⟩ | h)
      · exact ⟨[], t, by simpa using ht⟩
      · obtain ⟨s, t, rfl⟩ := (strContains_iff rest needle).mp h
        exact ⟨c :: s, t, rfl⟩
    · rintro ⟨s, t, h⟩
      match s with
      | [] =>
        left
        exact ⟨t, by simpa using h⟩
      | a :: s2 =>
        right
        rw [List.cons_append, List.cons_append] at h
        obtain ⟨rfl, h2⟩ := List.cons.inj h
        exact (strContains_iff rest needle).mpr ⟨s2, t, h2⟩

theorem mem_of_strContains {hay needle : List Char}
    (h : strContains hay needle = true) {c : Char} (hc : c ∈ needle) : c ∈ hay := by
  obtain ⟨s, t, rfl⟩ := (strContains_iff hay needle).mp h
  simp only [List.append_assoc, List.mem_append]
  exact Or.inr (Or.inl hc)

/-- Python `str.lower` (the scripts only rely on its action on ASCII letters;
`Char.toLower` lowercases exactly the basic latin range, which covers every
marker the scripts lowercase for: "saas", "sdk"). -/
def pyLower (s : List Char) : List Char := s.map Char.toLower

theorem strContains_pyLower {hay needle : List Char}
    (h : strContains hay needle = true) :
    strContains (pyLower hay) (pyLower needle) = true := by
  obtain ⟨s, t, rfl⟩ := (strContains_iff hay needle).mp h
  exact (strContains_iff _ _).mpr ⟨pyLower s, pyLower t, by simp [pyLower]⟩

/-- The character class stripped by Python `str.strip()`
(exactly the code points for which `str.isspace` holds). -/
def pyIsSpace (c : Char) : Bool :=
  decide ((9 ≤ c.toNat ∧ c.toNat ≤ 13) ∨ (28 ≤ c.toNat ∧ c.toNat ≤ 32) ∨
    c.toNat = 133 ∨ c.toNat = 160 ∨ c.toNat = 5760 ∨
    (8192 ≤ c.toNat ∧ c.toNat ≤ 8202) ∨ c.toNat = 8232 ∨ c.toNat = 8233 ∨
    c.toNat = 8239 ∨ c.toNat = 8287 ∨ c.toNat = 12288)

/-- Python `str.strip()`: drop whitespace from both ends. -/
def pyStrip (s : List Char) : List Char :=
  ((s.dropWhile pyIsSpace).reverse.dropWhile pyIsSpace).reverse

theorem all_space_of_pyStrip_eq_nil {s : List Char} (h : pyStrip s = []) :
    ∀ c ∈ s, pyIsSpace c = true := by
  intro c hc
  have h1 : (s.dropWhile pyIsSpace).reverse.dropWhile pyIsSpace = [] := by
    simpa [pyStrip] using h
  have h3 : ∀ x ∈ s.dropWhile pyIsSpace, pyIsSpace x := by
    intro x hx
    exact List.dropWhile_eq_nil_iff.mp h1 x (List.mem_reverse.mpr hx)
  have h4 : c ∈ s.takeWhile pyIsSpace ++ s.dropWhile pyIsSpace := by
    rw [List.takeWhile_append_dropWhile]
    exact hc
  rcases List.mem_append.mp h4 with h5 | h5
  · exact List.mem_takeWhile_imp h5
  · exact h3 c h5

theorem toLower_eq_self_of_space {c : Char} (h : pyIsSpace c = true) :
    Char.toLower c = c := by
  have hn : ¬ (c.toNat ≥ 65 ∧ c.toNat ≤ 90) := by
    simp only [pyIsSpace, decide_eq_true_eq] at h
    omega
  unfold Char.toLower
  show (if c.toNat ≥ 65 ∧ c.toNat ≤ 90 then Char.ofNat (c.toNat + 32) else c) = c
  exact if_neg hn

theorem strContains_eq_false_of_all_space {hay needle : List Char}
    (hall : ∀ c ∈ hay, pyIsSpace c = true) {d : Char} (hd : d ∈ needle)
    (hds : pyIsSpace d = false) : strContains hay needle = false := by
  by_contra hne
  have ht : strContains hay needle = true := by
    cases hb : strContains hay needle
    · exact absurd hb hne
    · rfl
  have hsp : pyIsSpace d = true := hall d (mem_of_strContains ht hd)
  rw [hsp] at hds
  simp at hds

theorem all_space_pyLower {s : List Char} (h : ∀ c ∈ s, pyIsSpace c = true) :
    ∀ c ∈ pyLower s, pyIsSpace c = true := by
  intro c hc
  obtain ⟨d, hd, rfl⟩ := List.mem_map.mp hc
  rw [toLower_eq_self_of_space (h d hd)]
  exact h d hd

/-! ### Data model

`IssueRecord` is one row of the Jira export; `IncidentRecord` is one row of
the hand-maintained incident list.  `Option` fields model cells that may be
missing (`NaN`); the scripts map missing cells to the empty string. -/

/-- A missing cell is read as the empty string
(`str(x) if pd.notna(x) else ''`). -/
def fieldStr : Option (List Char) → List Char
  | none => []
  | some s => s

/-- One row of the Jira export (`问题类型`, `概要`, `描述`,
`自定义字段(客户名称)`, `自定义字段(缺陷发现环境)`). -/
structure IssueRecord where
  summary : Option (List Char)
  description : Option (List Char)
  customer_name : Option (List Char)
  discovery_environment : Option (List Char)
  issue_type : List Char
deriving DecidableEq

/-- One row of the incident list (`故障报告名称`, `故障日期`, `客户`).
`report_name` is the already-stringified cell (the script applies `str`
unconditionally to it). -/
structure IncidentRecord where
  report_name : List Char
  incident_date : Option (List Char)
  customer : Option (List Char)
deriving DecidableEq

/-! ### The Record Classifier (`analyze_saas_private.py`, lines 26-56) -/

/-- The three values `classify_deployment` can return:
`'SaaS'`, `'私有化'` (Private), `'未分类'` (Unclassified). -/
inductive DeployClass where
  | SaaS
  | Private
  | Unclassified
deriving DecidableEq, Repr

/-- Local `env` of `classify_deployment`. -/
def row_env (row : IssueRecord) : List Char := fieldStr row.discovery_environment

/-- Local `customer` of `classify_deployment`. -/
def row_customer (row : IssueRecord) : List Char := fieldStr row.customer_name

/-- The classifier's fixed allow-list of known private-deployment
customer names. -/
def private_keywords : List (List Char) :=
  ["福田".data, "南方电网".data, "OPPO".data, "广东电信".data, "唯品会".data,
   "好未来".data, "招商".data, "新华三".data, "跨越".data, "TCL".data,
   "百度".data, "小红书".data, "格力".data, "猿辅导".data, "360".data,
   "玉溪".data, "东风".data, "融云".data, "滴滴".data, "作业帮".data]

/-- `classify_deployment` of `analyze_saas_private.py`: the ordered rule
cascade over the environment and customer-name free-text fields. -/
def classify_deployment (row : IssueRecord) : DeployClass :=
  if strContains (row_env row) "SaaS".data = true ∨
      strContains (pyLower (row_env row)) "saas".data = true then
    DeployClass.SaaS
  else if strContains (row_env row) "私有化".data = true then
    DeployClass.Private
  else if row_customer row = "SaaS客户".data ∨
      strContains (row_customer row) "SaaS".data = true then
    DeployClass.SaaS
  else if strContains (row_customer row) "SDK".data = true ∨
      strContains (pyLower (row_customer row)) "sdk".data = true then
    DeployClass.Private
  else if ∃ kw ∈ private_keywords, strContains (row_customer row) kw = true then
    DeployClass.Private
  else if row_customer row ≠ [] ∧ pyStrip (row_customer row) ≠ [] then
    DeployClass.Private
  else
    DeployClass.Unclassified

/-- Claim C1: the classifier is total — on every `IssueRecord` it returns
exactly one of SaaS / Private / Unclassified — and when both free-text fields
are blank (empty or whitespace-only after stripping) it returns
Unclassified. -/
theorem classifier_total_and_no_signal :
    (∀ row : IssueRecord,
      classify_deployment row = DeployClass.SaaS ∨
      classify_deployment row = DeployClass.Private ∨
      classify_deployment row = DeployClass.Unclassified) ∧
    (∀ row : IssueRecord,
      pyStrip (row_env row) = [] →
      pyStrip (row_customer row) = [] →
      classify_deployment row = DeployClass.Unclassified) := by
  constructor
  · intro row
    cases hc : classify_deployment row
    · exact Or.inl rfl
    · exact Or.inr (Or.inl rfl)
    · exact Or.inr (Or.inr rfl)
  · intro row henv hcus
    have hespace : ∀ c ∈ row_env row, pyIsSpace c = true :=
      all_space_of_pyStrip_eq_nil henv
    have hcspace : ∀ c ∈ row_customer row, pyIsSpace c = true :=
      all_space_of_pyStrip_eq_nil hcus
    have helspace : ∀ c ∈ pyLower (row_env row), pyIsSpace c = true :=
      all_space_pyLower hespace
    unfold classify_deployment
    rw [if_neg, if_neg, if_neg, if_neg, if_neg, if_neg]
    · rintro ⟨-, hc⟩
      exact hc hcus
    · rintro ⟨kw, hkw, hc⟩
      have hex : ∃ d ∈ kw, pyIsSpace d = false := by
        have hall : ∀ k ∈ private_keywords, ∃ d ∈ k, pyIsSpace d = false := by decide
        exact hall kw hkw
      obtain ⟨d, hd, hds⟩ := hex
      rw [strContains_eq_false_of_all_space hcspace hd hds] at hc
      exact absurd hc (by simp)
    · rintro (hc | hc)
      · rw [strContains_eq_false_of_all_space hcspace
          (show 'S' ∈ "SDK".data by decide) (by decide)] at hc
        exact absurd hc (by simp)
      · rw [strContains_eq_false_of_all_space (all_space_pyLower hcspace)
          (show 's' ∈ "sdk".data by decide) (by decide)] at hc
        exact absurd hc (by simp)
    · rintro (hc | hc)
      · have : pyIsSpace 'S' = true := by
          rw [hc] at hcspace
          exact hcspace 'S' (by decide)
        exact absurd this (by decide)
      · rw [strContains_eq_false_of_all_space hcspace
          (show 'S' ∈ "SaaS".data by decide) (by decide)] at hc
        exact absurd hc (by simp)
    · intro hc
      rw [strContains_eq_false_of_all_space hespace
        (show '私' ∈ "私有化".data by decide) (by decide)] at hc
      exact absurd hc (by simp)
    · rintro (hc | hc)
      · rw [strContains_eq_false_of_all_space hespace
          (show 'S' ∈ "SaaS".data by decide) (by decide)] at hc
        exact absurd hc (by simp)
      · rw [strContains_eq_false_of_all_space helspace
          (show 's' ∈ "saas".data by decide) (by decide)] at hc
        exact absurd hc (by simp)

/-- Witness for C1: the all-missing row is classified Unclassified. -/
theorem classifier_total_and_no_signal_witness :
    classify_deployment ⟨none, none, none, none, []⟩ = DeployClass.Unclassified :=
  classifier_total_and_no_signal.2 ⟨none, none, none, none, []⟩ rfl rfl

/-- Claim C4: an environment field containing "私有化" (and no "saas" in any
casing) forces Private, whatever the customer-name field says — the
environment rules run before the customer-name SaaS rule. -/
theorem classifier_env_private_first (row : IssueRecord)
    (h1 : strContains (row_env row) "私有化".data = true)
    (h2 : strContains (pyLower (row_env row)) "saas".data = false) :
    classify_deployment row = DeployClass.Private := by
  unfold classify_deployment
  rw [if_neg, if_pos h1]
  rintro (hc | hc)
  · have hl := strContains_pyLower hc
    rw [show pyLower "SaaS".data = "saas".data from by decide] at hl
    rw [h2] at hl
    exact absurd hl (by simp)
  · rw [h2] at hc
    exact absurd hc (by simp)

/-- Witness for C4: environment "私有化" with customer name "SaaS"
still yields Private. -/
theorem classifier_env_private_first_witness :
    classify_deployment ⟨none, none, some "SaaS".data, some "私有化".data, []⟩ =
      DeployClass.Private :=
  classifier_env_private_first ⟨none, none, some "SaaS".data, some "私有化".data, []⟩
    (by decide) (by decide)

/-- Claim C10: the customer-name SaaS rule is case-sensitive.  With a blank
environment, a customer name containing "saas" in a casing other than the
exact "SaaS" (and no SDK marker, no allow-listed private name) falls through
to the default rule and is classified Private, not SaaS. -/
theorem classifier_customer_saas_case_sensitive (row : IssueRecord)
    (henv : row_env row = [])
    (h1 : strContains (pyLower (row_customer row)) "saas".data = true)
    (h2 : strContains (row_customer row) "SaaS".data = false)
    (h3 : strContains (pyLower (row_customer row)) "sdk".data = false)
    (h4 : ∀ kw ∈ private_keywords, strContains (row_customer row) kw = false) :
    classify_deployment row = DeployClass.Private := by
  have hs_mem : 's' ∈ pyLower (row_customer row) :=
    mem_of_strContains h1 (show 's' ∈ "saas".data by decide)
  have hcust_ne : row_customer row ≠ [] := by
    intro hc
    rw [hc] at hs_mem
    exact absurd hs_mem (by decide)
  have hstrip_ne : pyStrip (row_customer row) ≠ [] := by
    intro hc
    have hall := all_space_pyLower (all_space_of_pyStrip_eq_nil hc)
    have := hall 's' hs_mem
    exact absurd this (by decide)
  unfold classify_deployment
  rw [if_neg, if_neg, if_neg, if_neg, if_neg, if_pos ⟨hcust_ne, hstrip_ne⟩]
  · rintro ⟨kw, hkw, hc⟩
    rw [h4 kw hkw] at hc
    exact absurd hc (by simp)
  · rintro (hc | hc)
    · have hl := strContains_pyLower hc
      rw [show pyLower "SDK".data = "sdk".data from by decide, h3] at hl
      exact absurd hl (by simp)
    · rw [h3] at hc
      exact absurd hc (by simp)
  · rintro (hc | hc)
    · rw [hc] at h2
      exact absurd h2 (by decide)
    · rw [h2] at hc
      exact absurd hc (by simp)
  · intro hc
    rw [henv] at hc
    exact absurd hc (by decide)
  · rintro (hc | hc) <;> rw [henv] at hc <;> exact absurd hc (by decide)

/-- Witness for C10: customer name "saas平台" (lowercase marker only) with a
missing environment is classified Private. -/
theorem classifier_customer_saas_case_sensitive_witness :
    classify_deployment ⟨none, none, some "saas平台".data, none, []⟩ =
      DeployClass.Private :=
  classifier_customer_saas_case_sensitive ⟨none, none, some "saas平台".data, none, []⟩
    rfl (by decide) (by decide) (by decide) (by decide)

/-! ### The Cross-Source Reconciler (`quality_analysis.py`, lines 31-106) -/

/-- The fixed customer-name allow-list scanned by `extract_keywords`. -/
def customers : List (List Char) :=
  ["猿辅导".data, "好未来".data, "小红书".data, "京东".data, "OPPO".data,
   "边锋".data, "博纳".data, "广东电信".data, "北京凯读".data, "滴滴".data,
   "招商".data, "融云".data, "东风".data, "格力".data, "360".data, "玉溪".data]

/-- `extract_keywords` of `quality_analysis.py`: allow-listed customer names
occurring in the text, then the five fixed domain terms, each added when its
trigger substrings occur in the text. -/
def extract_keywords (text : List Char) : List (List Char) :=
  (customers.filter (fun c => strContains text c))
    ++ (if strContains text "表格".data = true ∨ strContains text "表单".data = true
        then ["表格".data] else [])
    ++ (if strContains text "文档".data = true ∨ strContains text "文件".data = true
        then ["文档".data] else [])
    ++ (if strContains text "同步".data = true then ["同步".data] else [])
    ++ (if strContains text "登录".data = true then ["登录".data] else [])
    ++ (if strContains text "白屏".data = true then ["白屏".data] else [])

/-- Python `s.replace(pat, sub)`, by fuel-indexed left-to-right scanning: a
match consumes `pat` and emits `sub`, otherwise one character is copied.
Each step consumes at least one character of `s`, so fuel `s.length`
(supplied by `replaceAll`) never runs out; the script only calls it with
non-empty patterns, and for an empty pattern this model copies `s`. -/
def replaceAllAux (pat sub : List Char) : Nat → List Char → List Char
  | _, [] => []
  | 0, s => s
  | fuel + 1, c :: rest =>
    if strStartsWith (c :: rest) pat = true ∧ pat ≠ [] then
      sub ++ replaceAllAux pat sub fuel (rest.drop (pat.length - 1))
    else
      c :: replaceAllAux pat sub fuel rest

/-- Python `s.replace(pat, sub)`. -/
def replaceAll (s pat sub : List Char) : List Char :=
  replaceAllAux pat sub s.length s

/-- The local `name_parts` of the matching loop:
`incident_name.replace('故障报告', '').replace('的', '').strip()`. -/
def name_parts (incident_name : List Char) : List Char :=
  pyStrip (replaceAll (replaceAll incident_name "故障报告".data []) "的".data [])

/-- The blob `combined_text = summary + ' ' + description + ' ' + customer`
built for one candidate Jira row. -/
def combined_text (j : IssueRecord) : List Char :=
  fieldStr j.summary ++ " ".data ++ fieldStr j.description ++ " ".data
    ++ fieldStr j.customer_name

/-- `sum(1 for kw in keywords if kw in combined_text)`. -/
def base_match_count (keywords : List (List Char)) (t : List Char) : Nat :=
  keywords.countP (fun kw => strContains t kw)

/-- The `+2` partial-name bonus: if `name_parts` is longer than 5 and its
first 10 characters occur in the blob, add 2. -/
def name_part_bonus (incident_name t : List Char) : Nat :=
  if 5 < (name_parts incident_name).length ∧
      strContains t ((name_parts incident_name).take 10) = true
  then 2 else 0

/-- The `match_count` computed for one incident/candidate pair. -/
def match_count (keywords : List (List Char)) (incident_name t : List Char) : Nat :=
  base_match_count keywords t + name_part_bonus incident_name t

/-- The keyword list of one incident row: `extract_keywords(incident_name)`
plus the `客户` cell when non-empty and not the literal `'nan'`. -/
def incident_keywords (row : IncidentRecord) : List (List Char) :=
  extract_keywords row.report_name
    ++ (if fieldStr row.customer ≠ [] ∧ fieldStr row.customer ≠ "nan".data
        then [fieldStr row.customer] else [])

/-- The inner loop over `jira_faults`: return the first candidate whose
`match_count` reaches 2, scanning in source order. -/
def find_match (keywords : List (List Char)) (incident_name : List Char) :
    List IssueRecord → Option IssueRecord
  | [] => none
  | j :: rest =>
    if 2 ≤ match_count keywords incident_name (combined_text j) then some j
    else find_match keywords incident_name rest

/-- The outer loop of `match_incidents_with_jira`: one `matches` entry
(incident paired with its bound Jira row) or one `no_matches` entry per
incident row, in source order. -/
def reconcile (jira_faults : List IssueRecord) :
    List IncidentRecord → List (IncidentRecord × IssueRecord) × List IncidentRecord
  | [] => ([], [])
  | row :: rest =>
    let p := reconcile jira_faults rest
    match find_match (incident_keywords row) row.report_name jira_faults with
    | some j => ((row, j) :: p.1, p.2)
    | none => (p.1, row :: p.2)

/-- `match_incidents_with_jira`: restrict the Jira rows to
`问题类型 == '故障'` and scan the incident rows. -/
def match_incidents_with_jira (incidents : List IncidentRecord)
    (jira : List IssueRecord) :
    List (IncidentRecord × IssueRecord) × List IncidentRecord :=
  reconcile (jira.filter (fun j => j.issue_type == "故障".data)) incidents

/-! ### Reconciler lemmas -/

theorem reconcile_cons_some {jf : List IssueRecord} {row : IncidentRecord}
    {rest : List IncidentRecord} {j : IssueRecord}
    (hm : find_match (incident_keywords row) row.report_name jf = some j) :
    reconcile jf (row :: rest) =
      ((row, j) :: (reconcile jf rest).1, (reconcile jf rest).2) := by
  simp only [reconcile]
  rw [hm]

theorem reconcile_cons_none {jf : List IssueRecord} {row : IncidentRecord}
    {rest : List IncidentRecord}
    (hm : find_match (incident_keywords row) row.report_name jf = none) :
    reconcile jf (row :: rest) =
      ((reconcile jf rest).1, row :: (reconcile jf rest).2) := by
  simp only [reconcile]
  rw [hm]

theorem find_match_eq_none_iff (keywords : List (List Char)) (incident_name : List Char) :
    ∀ l : List IssueRecord,
      find_match keywords incident_name l = none ↔
        ∀ j ∈ l, match_count keywords incident_name (combined_text j) < 2
  | [] => by simp [find_match]
  | a :: rest => by
    simp only [find_match]
    split
    · rename_i h
      simp only [List.mem_cons]
      constructor
      · intro hc
        exact absurd hc (Option.some_ne_none a)
      · intro hall
        exact absurd (hall a (Or.inl rfl)) (by omega)
    · rename_i h
      rw [find_match_eq_none_iff keywords incident_name rest]
      simp only [List.mem_cons]
      constructor
      · rintro hall j (rfl | hj)
        · omega
        · exact hall j hj
      · intro hall j hj
        exact hall j (Or.inr hj)

theorem find_match_eq_some_split (keywords : List (List Char)) (incident_name : List Char) :
    ∀ (l : List IssueRecord) (j : IssueRecord),
      find_match keywords incident_name l = some j →
      ∃ l₁ l₂, l = l₁ ++ j :: l₂ ∧
        2 ≤ match_count keywords incident_name (combined_text j) ∧
        ∀ k ∈ l₁, match_count keywords incident_name (combined_text k) < 2
  | [], j => by simp [find_match]
  | a :: rest, j => by
    simp only [find_match]
    split
    · rename_i h
      intro hj
      obtain rfl : a = j := Option.some.inj hj
      exact ⟨[], rest, rfl, h, by simp⟩
    · rename_i h
      intro hj
      obtain ⟨l₁, l₂, hsplit, h2, h3⟩ :=
        find_match_eq_some_split keywords incident_name rest j hj
      refine ⟨a :: l₁, l₂, by rw [hsplit, List.cons_append], h2, ?_⟩
      intro k hk
      rcases List.mem_cons.mp hk with rfl | hk2
      · omega
      · exact h3 k hk2

theorem reconcile_mem_matches (jf : List IssueRecord) :
    ∀ (incidents : List IncidentRecord) (a : IncidentRecord) (b : IssueRecord),
      (a, b) ∈ (reconcile jf incidents).1 →
      find_match (incident_keywords a) a.report_name jf = some b
  | [], a, b => by simp [reconcile]
  | row :: rest, a, b => by
    intro hq
    cases hm : find_match (incident_keywords row) row.report_name jf with
    | none =>
      rw [reconcile_cons_none hm] at hq
      exact reconcile_mem_matches jf rest a b hq
    | some j =>
      rw [reconcile_cons_some hm] at hq
      rcases List.mem_cons.mp hq with heq | hq2
      · obtain ⟨rfl, rfl⟩ : a = row ∧ b = j := by
          simpa [Prod.ext_iff] using heq
        exact hm
      · exact reconcile_mem_matches jf rest a b hq2

theorem reconcile_unmatched_of_none (jf : List IssueRecord) :
    ∀ (incidents : List IncidentRecord) (row : IncidentRecord),
      row ∈ incidents →
      find_match (incident_keywords row) row.report_name jf = none →
      row ∈ (reconcile jf incidents).2
  | [], row => by simp
  | r :: rest, row => by
    intro hmem hnone
    rcases List.mem_cons.mp hmem with rfl | hmem2
    · rw [reconcile_cons_none hnone]
      exact List.mem_cons_self row _
    · have ih := reconcile_unmatched_of_none jf rest row hmem2 hnone
      cases hm : find_match (incident_keywords r) r.report_name jf with
      | none =>
        rw [reconcile_cons_none hm]
        exact List.mem_cons_of_mem r ih
      | some j =>
        rw [reconcile_cons_some hm]
        exact ih

theorem reconcile_length (jf : List IssueRecord) :
    ∀ incidents : List IncidentRecord,
      (reconcile jf incidents).1.length + (reconcile jf incidents).2.length
        = incidents.length
  | [] => rfl
  | row :: rest => by
    have ih := reconcile_length jf rest
    cases hm : find_match (incident_keywords row) row.report_name jf with
    | none =>
      rw [reconcile_cons_none hm]
      simp only [List.length_cons]
      omega
    | some j =>
      rw [reconcile_cons_some hm]
      simp only [List.length_cons]
      omega

theorem reconcile_count (jf : List IssueRecord) (r : IncidentRecord) :
    ∀ incidents : List IncidentRecord,
      ((reconcile jf incidents).1.map Prod.fst).count r
        + (reconcile jf incidents).2.count r = incidents.count r
  | [] => rfl
  | row :: rest => by
    have ih := reconcile_count jf r rest
    cases hm : find_match (incident_keywords row) row.report_name jf with
    | none =>
      rw [reconcile_cons_none hm]
      simp only [List.count_cons]
      omega
    | some j =>
      rw [reconcile_cons_some hm]
      simp only [List.map_cons, List.count_cons]
      omega

/-- Claim C2: the inner scan binds the first Jira candidate (in source order)
whose `match_count` — keyword-substring count plus the stripped-name bonus —
reaches 2; when no candidate reaches 2 the incident row lands in the
unmatched output. -/
theorem reconciler_first_match_binding :
    (∀ (keywords : List (List Char)) (incident_name : List Char)
        (l : List IssueRecord) (j : IssueRecord),
      find_match keywords incident_name l = some j →
      ∃ l₁ l₂, l = l₁ ++ j :: l₂ ∧
        2 ≤ match_count keywords incident_name (combined_text j) ∧
        ∀ k ∈ l₁, match_count keywords incident_name (combined_text k) < 2) ∧
    (∀ (keywords : List (List Char)) (incident_name : List Char)
        (l : List IssueRecord),
      find_match keywords incident_name l = none ↔
        ∀ j ∈ l, match_count keywords incident_name (combined_text j) < 2) ∧
    (∀ (jf : List IssueRecord) (incidents : List IncidentRecord)
        (row : IncidentRecord),
      row ∈ incidents →
      find_match (incident_keywords row) row.report_name jf = none →
      row ∈ (reconcile jf incidents).2) :=
  ⟨fun kws n l j => find_match_eq_some_split kws n l j,
   fun kws n l => find_match_eq_none_iff kws n l,
   fun jf incidents row => reconcile_unmatched_of_none jf incidents row⟩

/-- Witness for C2: an incident sharing nothing with an empty candidate list
is emitted unmatched. -/
theorem reconciler_first_match_binding_witness :
    (⟨"无关".data, none, none⟩ : IncidentRecord) ∈
      (reconcile [] [⟨"无关".data, none, none⟩]).2 :=
  reconciler_first_match_binding.2.2 [] [⟨"无关".data, none, none⟩]
    ⟨"无关".data, none, none⟩ (by simp) rfl

/-- Claim C3: the reconciler emits exactly one result per incident row: the
matched and unmatched outputs have lengths summing to the input length, every
incident occurs in the two outputs exactly as often as in the input, and a
given incident row is bound to at most one Jira row. -/
theorem reconciler_partition (incidents : List IncidentRecord)
    (jira : List IssueRecord) :
    ((match_incidents_with_jira incidents jira).1.length
      + (match_incidents_with_jira incidents jira).2.length = incidents.length) ∧
    (∀ r : IncidentRecord,
      ((match_incidents_with_jira incidents jira).1.map Prod.fst).count r
        + (match_incidents_with_jira incidents jira).2.count r
        = incidents.count r) ∧
    (∀ (r : IncidentRecord) (j₁ j₂ : IssueRecord),
      (r, j₁) ∈ (match_incidents_with_jira incidents jira).1 →
      (r, j₂) ∈ (match_incidents_with_jira incidents jira).1 → j₁ = j₂) := by
  refine ⟨reconcile_length _ incidents, fun r => reconcile_count _ r incidents, ?_⟩
  intro r j₁ j₂ h1 h2
  have e1 := reconcile_mem_matches _ incidents r j₁ h1
  have e2 := reconcile_mem_matches _ incidents r j₂ h2
  rw [e1] at e2
  exact Option.some.inj e2

/-- Witness for C3: a singleton run keeps exactly one record. -/
theorem reconciler_partition_witness :
    (match_incidents_with_jira [⟨"无关".data, none, none⟩] []).1.length
      + (match_incidents_with_jira [⟨"无关".data, none, none⟩] []).2.length = 1 :=
  (reconciler_partition [⟨"无关".data, none, none⟩] []).1

/-- Claim C6: the reconciler is a pure function of its two inputs — equal
inputs give the same match assignment — and within one run a matched incident
row determines its bound Jira row uniquely. -/
theorem reconciler_deterministic :
    (∀ (inc₁ inc₂ : List IncidentRecord) (jira₁ jira₂ : List IssueRecord),
      inc₁ = inc₂ → jira₁ = jira₂ →
      match_incidents_with_jira inc₁ jira₁ = match_incidents_with_jira inc₂ jira₂) ∧
    (∀ (incidents : List IncidentRecord) (jira : List IssueRecord)
        (q₁ q₂ : IncidentRecord × IssueRecord),
      q₁ ∈ (match_incidents_with_jira incidents jira).1 →
      q₂ ∈ (match_incidents_with_jira incidents jira).1 →
      q₁.1 = q₂.1 → q₁.2 = q₂.2) := by
  constructor
  · rintro inc₁ inc₂ jira₁ jira₂ rfl rfl
    rfl
  · intro incidents jira q₁ q₂ h1 h2 heq
    have e1 := reconcile_mem_matches _ incidents q₁.1 q₁.2 (by simpa using h1)
    have e2 := reconcile_mem_matches _ incidents q₂.1 q₂.2 (by simpa using h2)
    rw [heq] at e1
    rw [e1] at e2
    exact Option.some.inj e2

/-- Witness for C6: re-running on a fixed concrete input reproduces the
same output. -/
theorem reconciler_deterministic_witness :
    match_incidents_with_jira [⟨"无关".data, none, none⟩] []
      = match_incidents_with_jira [⟨"无关".data, none, none⟩] [] :=
  reconciler_deterministic.1 _ _ _ _ rfl rfl

/-- Claim C7: for a fixed candidate blob, appending a keyword that occurs in
the blob raises `match_count` by one, so it never decreases and never turns a
matching candidate into a non-matching one. -/
theorem match_count_monotone (keywords : List (List Char))
    (kw incident_name t : List Char) (h : strContains t kw = true) :
    match_count keywords incident_name t ≤ match_count (keywords ++ [kw]) incident_name t ∧
    (2 ≤ match_count keywords incident_name t →
      2 ≤ match_count (keywords ++ [kw]) incident_name t) := by
  have hb : base_match_count (keywords ++ [kw]) t = base_match_count keywords t + 1 := by
    simp [base_match_count, List.countP_append, h]
  constructor
  · simp only [match_count, hb]
    omega
  · simp only [match_count, hb]
    omega

/-- Witness for C7. -/
theorem match_count_monotone_witness :
    match_count [] "x".data "同步".data ≤
      match_count ([] ++ ["同步".data]) "x".data "同步".data :=
  (match_count_monotone [] "同步".data "x".data "同步".data (by decide)).1

/-- Claim C9: the keyword list may hold duplicates and each occurrence counts:
when the customer cell equals an allow-listed token that also occurs in the
report name, the token is in the keyword list twice, so any blob containing
just that token already reaches `match_count = 2`. -/
theorem duplicate_keyword_counted_twice (row : IncidentRecord)
    (h1 : fieldStr row.customer ∈ customers)
    (h2 : strContains row.report_name (fieldStr row.customer) = true) :
    2 ≤ (incident_keywords row).count (fieldStr row.customer) ∧
    (∀ t : List Char, strContains t (fieldStr row.customer) = true →
      2 ≤ match_count (incident_keywords row) row.report_name t) := by
  have hcust : fieldStr row.customer ≠ [] ∧ fieldStr row.customer ≠ "nan".data := by
    have hall : ∀ k ∈ customers, k ≠ [] ∧ k ≠ "nan".data := by decide
    exact hall _ h1
  have hmem : fieldStr row.customer ∈ extract_keywords row.report_name := by
    have hf : fieldStr row.customer ∈
        customers.filter (fun c => strContains row.report_name c) :=
      List.mem_filter.mpr ⟨h1, h2⟩
    unfold extract_keywords
    simp only [List.append_assoc, List.mem_append]
    exact Or.inl hf
  have hcount : 2 ≤ (incident_keywords row).count (fieldStr row.customer) := by
    unfold incident_keywords
    rw [if_pos hcust, List.count_append]
    have hpos : 0 < (extract_keywords row.report_name).count (fieldStr row.customer) :=
      List.count_pos_iff.mpr hmem
    have hone : (([(fieldStr row.customer)] : List (List Char)).count
        (fieldStr row.customer)) = 1 := List.count_singleton_self _
    omega
  refine ⟨hcount, ?_⟩
  intro t ht
  have hmono : (incident_keywords row).count (fieldStr row.customer) ≤
      base_match_count (incident_keywords row) t := by
    rw [List.count_eq_countP]
    apply List.countP_mono_left
    intro x hx hbeq
    have hxe : x = fieldStr row.customer := by simpa using hbeq
    rw [hxe]
    exact ht
  have hdef : match_count (incident_keywords row) row.report_name t =
      base_match_count (incident_keywords row) t
        + name_part_bonus row.report_name t := rfl
  omega

/-- Witness for C9: customer "滴滴" also occurring in the report name makes a
blob containing just "滴滴" reach the threshold. -/
theorem duplicate_keyword_counted_twice_witness :
    2 ≤ match_count (incident_keywords ⟨"滴滴出行问题".data, none, some "滴滴".data⟩)
        "滴滴出行问题".data "滴滴线上".data :=
  (duplicate_keyword_counted_twice ⟨"滴滴出行问题".data, none, some "滴滴".data⟩
    (by decide) (by decide)).2 "滴滴线上".data (by decide)

theorem mem_ite_singleton {α : Type} {a b : α} {c : Prop} [Decidable c] :
    (a ∈ if c then [b] else []) ↔ a = b ∧ c := by
  split_ifs with h <;> simp [h]

/-- Claim C8: the concrete scenario — incident report "滴滴文档同步故障报告"
against a Jira fault row whose summary contains "滴滴" and whose description
contains "同步" — derives "滴滴" and "同步" as keywords, both occur in the
blob, `match_count` is exactly 2, and the pair is declared matched. -/
theorem didi_sync_scenario :
    "滴滴".data ∈ incident_keywords ⟨"滴滴文档同步故障报告".data, none, none⟩ ∧
    "同步".data ∈ incident_keywords ⟨"滴滴文档同步故障报告".data, none, none⟩ ∧
    strContains
      (combined_text ⟨some "滴滴客户问题".data, some "数据同步异常".data,
        none, none, "故障".data⟩) "滴滴".data = true ∧
    strContains
      (combined_text ⟨some "滴滴客户问题".data, some "数据同步异常".data,
        none, none, "故障".data⟩) "同步".data = true ∧
    match_count (incident_keywords ⟨"滴滴文档同步故障报告".data, none, none⟩)
      "滴滴文档同步故障报告".data
      (combined_text ⟨some "滴滴客户问题".data, some "数据同步异常".data,
        none, none, "故障".data⟩) = 2 ∧
    match_incidents_with_jira [⟨"滴滴文档同步故障报告".data, none, none⟩]
      [⟨some "滴滴客户问题".data, some "数据同步异常".data, none, none, "故障".data⟩]
      = ([(⟨"滴滴文档同步故障报告".data, none, none⟩,
           ⟨some "滴滴客户问题".data, some "数据同步异常".data, none, none,
             "故障".data⟩)], []) := by
  decide

/-- Claim C5, counterexample: the keyword extractor carries FIVE fixed domain
terms, not four — a report name triggering all of them yields five domain
keywords. -/
theorem domain_terms_are_five_not_four :
    incident_keywords ⟨"表单文件同步登录白屏".data, none, none⟩ =
      ["表格".data, "文档".data, "同步".data, "登录".data, "白屏".data] ∧
    ¬ (incident_keywords ⟨"表单文件同步登录白屏".data, none, none⟩).length ≤ 4 := by
  decide

/-- Claim C5 as amended: the derived keyword list consists exactly of the
allow-listed customer tokens occurring in the report name, the five fixed
domain terms — "表格" (spreadsheet/form), "文档" (document/file), "同步"
(synchronization), "登录" (login), "白屏" (blank-screen) — each present
exactly when its trigger substrings occur in the report name, and the
customer cell itself when non-empty and not the literal "nan". -/
theorem incident_keywords_mem_iff (row : IncidentRecord) (kw : List Char) :
    kw ∈ incident_keywords row ↔
      ((kw ∈ customers ∧ strContains row.report_name kw = true) ∨
       (kw = "表格".data ∧ (strContains row.report_name "表格".data = true ∨
          strContains row.report_name "表单".data = true)) ∨
       (kw = "文档".data ∧ (strContains row.report_name "文档".data = true ∨
          strContains row.report_name "文件".data = true)) ∨
       (kw = "同步".data ∧ strContains row.report_name "同步".data = true) ∨
       (kw = "登录".data ∧ strContains row.report_name "登录".data = true) ∨
       (kw = "白屏".data ∧ strContains row.report_name "白屏".data = true) ∨
       (kw = fieldStr row.customer ∧ fieldStr row.customer ≠ [] ∧
          fieldStr row.customer ≠ "nan".data)) := by
  unfold incident_keywords extract_keywords
  simp only [List.append_assoc, List.mem_append, List.mem_filter,
    mem_ite_singleton]

end DataAnalysis
